import Mathlib

/-!
# Validator dashboard handlers (`handlers/dashboard.go`)

A shallow embedding of `parseValidatorsFromQueryString` and of the dashboard
data handlers, followed by the properties established about them.

Conventions of the embedding.

* A Go `string` is a Lean `String`; the functions below work on its list of
  characters.  Splitting on `','` and recognising the digits `'0'..'9'` give
  the same result on code points as on UTF-8 bytes, since every byte of a
  non-ASCII character is at least `0x80`.
* `uint64` values are `Nat`s, reduced modulo `2 ^ 64` where the source can
  wrap; Go's `int` is `Int`.
* A Go result `(value, error)` is a pair whose second component is an
  `Option`: `none` is the `nil` error.
-/

namespace Dashboard

/-! ## Library functions used by the parser -/

/-- The two sentinel errors wrapped by `strconv.NumError`. -/
inductive NumErrKind where
  | ErrSyntax
  | ErrRange
  deriving DecidableEq

/-- The errors `parseValidatorsFromQueryString` can return: the one it builds
with `fmt.Errorf("too much validators")`, and the `*strconv.NumError` passed on
from `strconv.ParseUint` (which records the offending input). -/
inductive GoError where
  | tooMuchValidators
  | numError (num : List Char) (kind : NumErrKind)
  deriving DecidableEq

/-- The largest `uint64`. -/
def maxUint64 : Nat := 2 ^ 64 - 1

/-- The function `lower` of `strconv`: `c | ('x' - 'X')`. -/
def lower (c : Nat) : Nat := c ||| 0x20

/-- The digit loop of `strconv.ParseUint(s, 10, 64)`: `n` is the accumulator,
`s0` the whole input (kept for the error value).  `cutoff` is
`maxUint64/10 + 1`; past it `n * 10` would overflow. -/
def parseUintLoop (s0 : List Char) : List Char → Nat → Nat × Option GoError
  | [], n => (n, none)
  | ch :: rest, n =>
    let c := ch.toNat
    if 48 ≤ c ∧ c ≤ 57 then
      let d := c - 48
      if n ≥ maxUint64 / 10 + 1 then
        (maxUint64, some (.numError s0 .ErrRange))
      else
        let n10 := (n * 10) % 2 ^ 64
        let n1 := (n10 + d) % 2 ^ 64
        if n1 < n10 ∨ n1 > maxUint64 then
          (maxUint64, some (.numError s0 .ErrRange))
        else
          parseUintLoop s0 rest n1
    else if 97 ≤ lower c ∧ lower c ≤ 122 then
      -- a letter is the digit `lower(c) - 'a' + 10`, never below the base 10
      (0, some (.numError s0 .ErrSyntax))
    else
      (0, some (.numError s0 .ErrSyntax))

/-- Go's `strconv.ParseUint(s, 10, 64)`: the empty string is a syntax error,
no sign is accepted, every character must be a decimal digit, and a value
above `maxUint64` is a range error. -/
def ParseUint (s : List Char) : Nat × Option GoError :=
  if s = [] then (0, some (.numError s .ErrSyntax))
  else parseUintLoop s s 0

/-- Go's `strings.Split(s, ",")`: the substrings between the commas, one more
than there are commas (so one empty substring for the empty string). -/
def Split : List Char → List (List Char)
  | [] => [[]]
  | c :: cs =>
    if c = ',' then [] :: Split cs
    else
      match Split cs with
      | [] => [[c]]
      | t :: ts => (c :: t) :: ts

/-! ## `parseValidatorsFromQueryString` -/

/-- The `for i, vStr := range strSplit` loop.  `keys` lists the values `v` with
`keys[v] = true`, `validators` is the buffer made by
`make([]uint64, strSplitLen)`, and `i` the index of the token at the head. -/
def parseLoop : List (List Char) → Nat → List Nat → List Nat → List Nat × Option GoError
  | [], _, _, validators => (validators, none)
  | vStr :: rest, i, keys, validators =>
    match ParseUint vStr with
    | (_, some err) => ([], some err)
    | (v, none) =>
      if v ∈ keys then
        parseLoop rest (i + 1) keys validators
      else
        parseLoop rest (i + 1) (v :: keys) (validators.set i v)

/-- The function `parseValidatorsFromQueryString(str, validatorLimit)`. -/
def parseValidatorsFromQueryString (str : String) (validatorLimit : Int) :
    List Nat × Option GoError :=
  if str = "" then ([], none)
  else
    let strSplit := Split str.toList
    let strSplitLen := strSplit.length
    if (strSplitLen : Int) > validatorLimit then
      ([], some .tooMuchValidators)
    else
      parseLoop strSplit 0 [] (List.replicate strSplitLen 0)

/-! ## Vocabulary for the statements about the parser -/

/-- The `','`-separated tokens of a raw string. -/
def tokens (str : String) : List (List Char) := Split str.toList

/-- A token is valid when `strconv.ParseUint` accepts it. -/
def validToken (tok : List Char) : Prop := (ParseUint tok).2 = none

instance (tok : List Char) : Decidable (validToken tok) := by
  unfold validToken; infer_instance

/-- The integer a token parses to. -/
def tokenValue (tok : List Char) : Nat := (ParseUint tok).1

/-- The integers parsed from the tokens of a raw string, in token order. -/
def tokenValues (str : String) : List Nat := (tokens str).map tokenValue

/-- The number a digit string denotes when read after the accumulator `n`. -/
def decimalValue (s : List Char) (n : Nat) : Nat :=
  s.foldl (fun acc c => acc * 10 + (c.toNat - 48)) n

/-- The character is one of `'0'..'9'`. -/
def isDecimalDigit (c : Char) : Prop := 48 ≤ c.toNat ∧ c.toNat ≤ 57

/-- An error of the malformed-identifier kind: one raised by `ParseUint`. -/
def isMalformed : Option GoError → Prop
  | some (.numError _ _) => True
  | _ => False

/-- The loop without its error exit, on the parsed values: what `parseLoop`
computes when every token is valid. -/
def fillLoop : List Nat → Nat → List Nat → List Nat → List Nat
  | [], _, _, validators => validators
  | v :: rest, i, keys, validators =>
    if v ∈ keys then fillLoop rest (i + 1) keys validators
    else fillLoop rest (i + 1) (v :: keys) (validators.set i v)

/-- The distinct values of a list in the order of their first occurrences. -/
def distinctInOrder : List Nat → List Nat
  | [] => []
  | v :: rest => v :: (distinctInOrder rest).filter (fun x => decide (x ≠ v))

/-- Position `i` holds the first occurrence of its value in `vals`. -/
def isFirstOccurrence (vals : List Nat) (i : Nat) : Bool :=
  decide (vals.getD i 0 ∉ vals.take i)

/-- The entries of `vs` at the positions where `vals` has a first occurrence,
in order. -/
def entriesAtFirstOccurrences (vals vs : List Nat) : List Nat :=
  ((List.range vals.length).filter (isFirstOccurrence vals)).map (fun i => vs.getD i 0)

/-! ## The response writer -/

/-- A JSON value, as `encoding/json` writes it. -/
inductive Json where
  | null
  | num (n : Int)
  | str (s : String)
  | arr (xs : List Json)
  | obj (fields : List (String × Json))

/-- One write to the response body: the text of an `http.Error`, or the JSON
document of a `json.NewEncoder(w).Encode`. -/
inductive Body where
  | text (s : String)
  | json (v : Json)

/-- The observable state of an `http.ResponseWriter`: the status code of the
header once it is written, and the writes to the body in order.  Header fields
(`Content-Type`) are not modelled. -/
structure ResponseWriter where
  status : Option Nat
  body : List Body

/-- The writer a handler starts from: nothing written. -/
def ResponseWriter.new : ResponseWriter := ⟨none, []⟩

/-- The method `WriteHeader(code)`: a second call is superfluous and ignored. -/
def ResponseWriter.WriteHeader (w : ResponseWriter) (code : Nat) : ResponseWriter :=
  match w.status with
  | some _ => w
  | none => { w with status := some code }

/-- The method `Write`: writes the header with status 200 first when it has
not been written yet. -/
def ResponseWriter.Write (w : ResponseWriter) (b : Body) : ResponseWriter :=
  let w1 := w.WriteHeader 200
  { w1 with body := w1.body ++ [b] }

/-- The function `http.Error(w, msg, code)`: `WriteHeader(code)`, then the
message line written to the body. -/
def httpError (w : ResponseWriter) (msg : String) (code : Nat) : ResponseWriter :=
  (w.WriteHeader code).Write (.text msg)

/-! ## Collaborators of the handlers -/

/-- Modelled from the spec: the declaration of `types.ValidatorsPageDataValidators`
is not among the sources; these are the fields `DashboardDataValidators` reads.
The lifecycle epochs are unsigned 64-bit integers (the spec's `EpochIndex`, whose
unset sentinel is a 64-bit unsigned value); `LastAttestationSlot` is a nullable
`*int64`, converted with `uint64(...)` in the source. -/
structure ValidatorsPageDataValidators where
  PublicKey : List Nat
  ValidatorIndex : Nat
  CurrentBalance : Nat
  EffectiveBalance : Nat
  State : String
  ActivationEpoch : Nat
  ExitEpoch : Nat
  WithdrawableEpoch : Nat
  LastAttestationSlot : Option Int
  ExecutedProposals : Nat
  MissedProposals : Nat
  Performance7d : Int

/-- A row of the anonymous struct scanned in `DashboardDataProposalsHistory`. -/
structure ProposalHistoryRow where
  ValidatorIndex : Nat
  Day : Int
  Proposed : Option Nat
  Missed : Option Nat
  Orphaned : Option Nat

/-- What a handler reads from the request: the `validators` query parameter,
`GetCurrency(r)` and `getUserPremium(r).MaxValidators`. -/
structure Request where
  validators : String
  currency : String
  MaxValidators : Int

/-- The packages the handlers call into, none of which is among the sources:
the time conversions of `utils` (composed with `.Unix()`), `services.LatestEpoch`,
the `fmt.Sprintf` and `utils.FormatIncome` formatting (floating point, returned
as the formatted text), the store queries with their Go result `(value, error)`,
and whether `json` fails to encode a value.  A `Select` that fails still leaves
a destination slice behind, so both components are always present. -/
structure Env where
  EpochToTimeUnix : Nat → Int
  SlotToTimeUnix : Nat → Int
  DayToTimeUnix : Int → Int
  LatestEpoch : Nat
  SprintfPubKey : List Nat → String
  SprintfIndex : Nat → String
  SprintfBalance : Nat → String → String
  SprintfEffectiveBalance : Nat → String → String
  FormatIncome : Int → String → String
  GetValidatorIncomeHistoryChart : List Nat → String → Json × Option String
  selectProposals : List Nat → List (Nat × Nat) × Option String
  selectValidators : List Nat → Int → List ValidatorsPageDataValidators × Option String
  GetValidatorEarnings : List Nat → String → Option Json × Option String
  zeroValidatorEarnings : Json
  selectActiveValidators : List Nat → Nat → List Nat × Option String
  GetValidatorEffectiveness : List Nat → Nat → List Json × Option String
  selectProposalsHistory : List Nat → List ProposalHistoryRow × Option String
  encodeFails : Json → Bool

/-- The conversion `uint64(x)` of an `int64`. -/
def toUint64 (x : Int) : Nat := (x % 2 ^ 64).toNat

/-- The tail shared by all data handlers: `json.NewEncoder(w).Encode(v)`, and
on an encoding error (nothing written by the encoder) an `http.Error` with
status 503. -/
def encodeResponse (env : Env) (w : ResponseWriter) (v : Json) : ResponseWriter :=
  if env.encodeFails v then httpError w "Internal server error" 503
  else w.Write (.json v)

/-! ## The handlers -/

/-- The handler `DashboardDataBalance`. -/
def DashboardDataBalance (env : Env) (r : Request) : ResponseWriter :=
  let w := ResponseWriter.new
  match parseValidatorsFromQueryString r.validators r.MaxValidators with
  | (_, some _) => httpError w "Invalid query" 400
  | (queryValidators, none) =>
    if queryValidators.length < 1 then httpError w "Invalid query" 400
    else
      match env.GetValidatorIncomeHistoryChart queryValidators r.currency with
      | (_, some _) => httpError w "Internal server error" 500
      | (incomeHistoryChartData, none) => encodeResponse env w incomeHistoryChartData

/-- The handler `DashboardDataProposals`. -/
def DashboardDataProposals (env : Env) (r : Request) : ResponseWriter :=
  let w := ResponseWriter.new
  match parseValidatorsFromQueryString r.validators r.MaxValidators with
  | (_, some _) => httpError w "Invalid query" 400
  | (filterArr, none) =>
    match env.selectProposals filterArr with
    | (_, some _) => httpError w "Internal server error" 503
    | (proposals, none) =>
      let proposalsResult := proposals.map fun b =>
        Json.arr [.num (toUint64 (env.SlotToTimeUnix b.1)), .num b.2]
      encodeResponse env w (.arr proposalsResult)

/-- The body of the loop of `DashboardDataValidators`: the table row of one
validator. -/
def validatorRow (env : Env) (currency : String) (v : ValidatorsPageDataValidators) :
    List Json :=
  let row : List Json :=
    [ .str (env.SprintfPubKey v.PublicKey),
      .str (env.SprintfIndex v.ValidatorIndex),
      .arr [ .str (env.SprintfBalance v.CurrentBalance currency),
             .str (env.SprintfEffectiveBalance v.EffectiveBalance currency) ],
      .str v.State ]
  let row :=
    if v.ActivationEpoch ≠ 9223372036854775807 then
      row ++ [.arr [.num v.ActivationEpoch, .num (env.EpochToTimeUnix v.ActivationEpoch)]]
    else row ++ [.null]
  let row :=
    if v.ExitEpoch ≠ 9223372036854775807 then
      row ++ [.arr [.num v.ExitEpoch, .num (env.EpochToTimeUnix v.ExitEpoch)]]
    else row ++ [.null]
  let row :=
    if v.WithdrawableEpoch ≠ 9223372036854775807 then
      row ++ [.arr [.num v.WithdrawableEpoch, .num (env.EpochToTimeUnix v.WithdrawableEpoch)]]
    else row ++ [.null]
  let row :=
    match v.LastAttestationSlot with
    | some slot => row ++ [.arr [.num slot, .num (env.SlotToTimeUnix (toUint64 slot))]]
    | none => row ++ [.null]
  let row := row ++ [.arr [.num v.ExecutedProposals, .num v.MissedProposals]]
  row ++ [.str (env.FormatIncome v.Performance7d currency)]

/-- The handler `DashboardDataValidators`. -/
def DashboardDataValidators (env : Env) (r : Request) : ResponseWriter :=
  let w := ResponseWriter.new
  match parseValidatorsFromQueryString r.validators r.MaxValidators with
  | (_, some _) => httpError w "Invalid query" 400
  | (filterArr, none) =>
    match env.selectValidators filterArr r.MaxValidators with
    | (_, some _) => httpError w "Internal server error" 503
    | (validators, none) =>
      let tableData := validators.map fun v => Json.arr (validatorRow env r.currency v)
      let data := Json.obj [("latestEpoch", .num env.LatestEpoch), ("data", .arr tableData)]
      encodeResponse env w data

/-- The handler `DashboardDataEarnings`.  After the `http.Error` for a failed
`GetValidatorEarnings` the source has no `return`: the handler goes on. -/
def DashboardDataEarnings (env : Env) (r : Request) : ResponseWriter :=
  let w := ResponseWriter.new
  match parseValidatorsFromQueryString r.validators r.MaxValidators with
  | (_, some _) => httpError w "Invalid query" 400
  | (queryValidators, none) =>
    let (earnings, err) := env.GetValidatorEarnings queryValidators r.currency
    let w :=
      match err with
      | some _ => httpError w "Internal server error" 503
      | none => w
    let earnings :=
      match earnings with
      | none => env.zeroValidatorEarnings
      | some e => e
    encodeResponse env w earnings

/-- The handler `DashboardDataEffectiveness`.  An error of the first query is
logged only; an error of the second is checked after the loop over its
result. -/
def DashboardDataEffectiveness (env : Env) (r : Request) : ResponseWriter :=
  let w := ResponseWriter.new
  match parseValidatorsFromQueryString r.validators r.MaxValidators with
  | (_, some _) => httpError w "Invalid query" 400
  | (filterArr, none) =>
    let (activeValidators, _) := env.selectActiveValidators filterArr env.LatestEpoch
    if activeValidators.length = 0 then httpError w "Invalid query" 400
    else
      match env.GetValidatorEffectiveness activeValidators
          ((env.LatestEpoch + 2 ^ 64 - 1) % 2 ^ 64) with
      | (_, some _) => httpError w "Internal server error" 503
      | (effectiveness, none) =>
        -- `avgIncDistance` is a nil slice until the first `append`
        let avgIncDistance := if effectiveness.isEmpty then Json.null else Json.arr effectiveness
        encodeResponse env w avgIncDistance

/-- The handler `DashboardDataProposalsHistory`. -/
def DashboardDataProposalsHistory (env : Env) (r : Request) : ResponseWriter :=
  let w := ResponseWriter.new
  match parseValidatorsFromQueryString r.validators r.MaxValidators with
  | (_, some _) => httpError w "Invalid query" 400
  | (filterArr, none) =>
    match env.selectProposalsHistory filterArr with
    | (_, some _) => httpError w "Internal server error" 503
    | (proposals, none) =>
      let proposalsHistResult := proposals.map fun b =>
        Json.arr [ .num b.ValidatorIndex,
                   .num (toUint64 (env.DayToTimeUnix b.Day)),
                   .num (b.Proposed.getD 0),
                   .num (b.Missed.getD 0),
                   .num (b.Orphaned.getD 0) ]
      encodeResponse env w (.arr proposalsHistResult)

/-! ## Vocabulary for the statements about the handlers -/

/-- The three lifecycle epoch fields of a validator record. -/
inductive LifecycleField where
  | activation
  | exit
  | withdrawable

/-- The value of a lifecycle field in a record. -/
def LifecycleField.value (f : LifecycleField) (v : ValidatorsPageDataValidators) : Nat :=
  match f with
  | .activation => v.ActivationEpoch
  | .exit => v.ExitEpoch
  | .withdrawable => v.WithdrawableEpoch

/-- The position of a lifecycle field in the table row: after the public key,
the index, the balances and the state. -/
def LifecycleField.position : LifecycleField → Nat
  | .activation => 4
  | .exit => 5
  | .withdrawable => 6

/-- The response carries a JSON payload. -/
def hasPayload (w : ResponseWriter) : Prop :=
  ∃ b ∈ w.body, ∃ v, b = Body.json v

/-- The response is a server error (5xx). -/
def isServerError (w : ResponseWriter) : Prop :=
  ∃ code, w.status = some code ∧ 500 ≤ code ∧ code < 600

/-- The response is a client error (4xx). -/
def isClientError (w : ResponseWriter) : Prop :=
  ∃ code, w.status = some code ∧ 400 ≤ code ∧ code < 500

/-- A store in which every query fails and leaves nothing behind, with the
mainnet genesis time and slot, epoch and day lengths for the time conversions
and plain decimal formatting. -/
def failingEnv : Env where
  EpochToTimeUnix := fun e => 1606824023 + 384 * e
  SlotToTimeUnix := fun s => 1606824023 + 12 * s
  DayToTimeUnix := fun d => 1606824023 + 86400 * d
  LatestEpoch := 1000
  SprintfPubKey := fun _ => ""
  SprintfIndex := fun n => toString n
  SprintfBalance := fun n c => toString n ++ " " ++ c
  SprintfEffectiveBalance := fun n c => toString n ++ " " ++ c
  FormatIncome := fun n c => toString n ++ " " ++ c
  GetValidatorIncomeHistoryChart := fun _ _ => (.null, some "store unavailable")
  selectProposals := fun _ => ([], some "store unavailable")
  selectValidators := fun _ _ => ([], some "store unavailable")
  GetValidatorEarnings := fun _ _ => (none, some "store unavailable")
  zeroValidatorEarnings := .obj []
  selectActiveValidators := fun _ _ => ([], some "store unavailable")
  GetValidatorEffectiveness := fun _ _ => ([], some "store unavailable")
  selectProposalsHistory := fun _ => ([], some "store unavailable")
  encodeFails := fun _ => false

/-- A validator that is active and has not exited: its exit and withdrawable
epochs hold the largest `uint64`. -/
def farFutureValidator : ValidatorsPageDataValidators where
  PublicKey := [0xa9, 0x3b]
  ValidatorIndex := 5
  CurrentBalance := 32000000000
  EffectiveBalance := 32000000000
  State := "active_online"
  ActivationEpoch := 0
  ExitEpoch := 18446744073709551615
  WithdrawableEpoch := 18446744073709551615
  LastAttestationSlot := none
  ExecutedProposals := 1
  MissedProposals := 0
  Performance7d := 0

/-- A validator whose exit and withdrawable epochs hold the sentinel the
handler checks for. -/
def unsetExitValidator : ValidatorsPageDataValidators :=
  { farFutureValidator with ExitEpoch := 9223372036854775807,
                            WithdrawableEpoch := 9223372036854775807 }

/-! ## Lemmas on the library functions -/

theorem parseUintLoop_err (s0 : List Char) :
    ∀ (s : List Char) (n : Nat) (e : GoError),
      (parseUintLoop s0 s n).2 = some e → ∃ k, e = .numError s0 k := by
  intro s
  induction s with
  | nil => intro n e h; simp [parseUintLoop] at h
  | cons ch rest ih =>
    intro n e h
    simp only [parseUintLoop] at h
    split_ifs at h with h1 h2 h3 h4
    · simp at h; exact ⟨_, h.symm⟩
    · simp at h; exact ⟨_, h.symm⟩
    · exact ih _ _ h
    · simp at h; exact ⟨_, h.symm⟩
    · simp at h; exact ⟨_, h.symm⟩

theorem ParseUint_err (s : List Char) (e : GoError) (h : (ParseUint s).2 = some e) :
    ∃ k, e = .numError s k := by
  unfold ParseUint at h
  split_ifs at h with h1
  · simp at h; exact ⟨_, h.symm⟩
  · exact parseUintLoop_err s s 0 e h

theorem ParseUint_isMalformed (s : List Char) (h : ¬ validToken s) :
    isMalformed (ParseUint s).2 := by
  unfold validToken at h
  cases hp : (ParseUint s).2 with
  | none => exact absurd hp h
  | some e =>
    obtain ⟨k, rfl⟩ := ParseUint_err s e hp
    trivial

theorem Split_ne_nil (s : List Char) : Split s ≠ [] := by
  cases s with
  | nil => simp [Split]
  | cons c cs =>
    simp only [Split]
    split_ifs
    · simp
    · split <;> simp

theorem Split_length_pos (s : List Char) : 0 < (Split s).length :=
  List.length_pos.mpr (Split_ne_nil s)

theorem decimalValue_ge (s : List Char) : ∀ n, n ≤ decimalValue s n := by
  induction s with
  | nil => intro n; exact Nat.le_refl _
  | cons c rest ih =>
    intro n
    have := ih (n * 10 + (c.toNat - 48))
    simp only [decimalValue, List.foldl_cons] at this ⊢
    omega

theorem parseUintLoop_digits (s0 : List Char) (s : List Char) :
    ∀ n, (∀ c ∈ s, isDecimalDigit c) → decimalValue s n < 2 ^ 64 →
      parseUintLoop s0 s n = (decimalValue s n, none) := by
  induction s with
  | nil => intro n _ _; rfl
  | cons c rest ih =>
    intro n hd hv
    have hc : 48 ≤ c.toNat ∧ c.toNat ≤ 57 := hd c (List.mem_cons_self _ _)
    have hrest : ∀ x ∈ rest, isDecimalDigit x := fun x hx => hd x (List.mem_cons_of_mem _ hx)
    have hv' : decimalValue rest (n * 10 + (c.toNat - 48)) < 2 ^ 64 := hv
    have hge := decimalValue_ge rest (n * 10 + (c.toNat - 48))
    have hlt : n * 10 + (c.toNat - 48) < 2 ^ 64 := by omega
    have h10 : (n * 10) % 2 ^ 64 = n * 10 := Nat.mod_eq_of_lt (by omega)
    have h1 : (n * 10 + (c.toNat - 48)) % 2 ^ 64 = n * 10 + (c.toNat - 48) :=
      Nat.mod_eq_of_lt hlt
    simp only [parseUintLoop, if_pos hc, h10, h1, maxUint64]
    rw [if_neg (by omega), if_neg (by omega)]
    exact ih _ hrest hv'

theorem parseUintLoop_ok (s0 : List Char) (s : List Char) :
    ∀ n, n < 2 ^ 64 → (parseUintLoop s0 s n).2 = none →
      (∀ c ∈ s, isDecimalDigit c) ∧ decimalValue s n < 2 ^ 64 := by
  induction s with
  | nil => intro n hn _; exact ⟨by simp, hn⟩
  | cons c rest ih =>
    intro n hn h
    simp only [parseUintLoop, maxUint64] at h
    split_ifs at h with hc h2 h3 h4
    · have hlt : n * 10 + (c.toNat - 48) < 2 ^ 64 := by
        by_contra hcon
        apply h3
        left
        have h10 : (n * 10) % 2 ^ 64 = n * 10 := Nat.mod_eq_of_lt (by omega)
        rw [h10]
        omega
      have h1 : (n * 10 % 2 ^ 64 + (c.toNat - 48)) % 2 ^ 64 = n * 10 + (c.toNat - 48) := by
        rw [Nat.mod_eq_of_lt (by omega : n * 10 < 2 ^ 64)]
        exact Nat.mod_eq_of_lt hlt
      rw [h1] at h
      obtain ⟨hd, hv⟩ := ih _ hlt h
      refine ⟨?_, hv⟩
      intro x hx
      rcases List.mem_cons.mp hx with rfl | hx
      · exact hc
      · exact hd x hx

/-- `ParseUint` accepts exactly the non-empty strings of decimal digits whose
value fits 64 bits. -/
theorem validToken_iff (tok : List Char) :
    validToken tok ↔ tok ≠ [] ∧ (∀ c ∈ tok, isDecimalDigit c) ∧ decimalValue tok 0 < 2 ^ 64 := by
  unfold validToken ParseUint
  constructor
  · intro h
    split_ifs at h with h0
    exact ⟨h0, parseUintLoop_ok tok tok 0 (by norm_num) h⟩
  · rintro ⟨h0, hd, hv⟩
    rw [if_neg h0, parseUintLoop_digits tok tok 0 hd hv]

/-- The value of a valid token is the number its digits denote. -/
theorem tokenValue_eq (tok : List Char) (h : validToken tok) :
    tokenValue tok = decimalValue tok 0 := by
  obtain ⟨h0, hd, hv⟩ := (validToken_iff tok).mp h
  unfold tokenValue ParseUint
  rw [if_neg h0, parseUintLoop_digits tok tok 0 hd hv]

theorem Split_length (s : List Char) : (Split s).length = s.count ',' + 1 := by
  induction s with
  | nil => rfl
  | cons c cs ih =>
    simp only [Split]
    split_ifs with hc
    · subst hc
      simp [ih]
    · have hne := Split_ne_nil cs
      cases hs : Split cs with
      | nil => exact absurd hs hne
      | cons t ts =>
        rw [hs] at ih
        simp only [List.length_cons] at ih ⊢
        rw [List.count_cons_of_ne (Ne.symm hc)]
        exact ih

theorem Split_no_comma (s : List Char) : ∀ t ∈ Split s, ',' ∉ t := by
  induction s with
  | nil => simp [Split]
  | cons c cs ih =>
    simp only [Split]
    split_ifs with hc
    · intro t ht
      rcases List.mem_cons.mp ht with rfl | ht
      · simp
      · exact ih t ht
    · have hne := Split_ne_nil cs
      cases hs : Split cs with
      | nil => exact absurd hs hne
      | cons t ts =>
        rw [hs] at ih
        intro u hu
        rcases List.mem_cons.mp hu with rfl | hu
        · intro hm
          rcases List.mem_cons.mp hm with hm | hm
          · exact hc hm.symm
          · exact ih t (List.mem_cons_self _ _) hm
        · exact ih u (List.mem_cons_of_mem _ hu)

theorem Split_join (s : List Char) : [','].intercalate (Split s) = s := by
  induction s with
  | nil => rfl
  | cons c cs ih =>
    simp only [Split]
    split_ifs with hc
    · subst hc
      have hne := Split_ne_nil cs
      cases hs : Split cs with
      | nil => exact absurd hs hne
      | cons t ts =>
        rw [hs] at ih
        simp [List.intercalate, List.intersperse] at ih ⊢
        exact ih
    · have hne := Split_ne_nil cs
      cases hs : Split cs with
      | nil => exact absurd hs hne
      | cons t ts =>
        rw [hs] at ih
        cases ts with
        | nil =>
          simp [List.intercalate, List.intersperse] at ih ⊢
          exact ih
        | cons u us =>
          simp [List.intercalate, List.intersperse] at ih ⊢
          exact ih

/-! ## Lemmas on the loop -/

theorem parseLoop_valid (toks : List (List Char)) :
    ∀ (i : Nat) (keys validators : List Nat), (∀ tok ∈ toks, validToken tok) →
      parseLoop toks i keys validators
        = (fillLoop (toks.map tokenValue) i keys validators, none) := by
  induction toks with
  | nil => intro i keys validators _; rfl
  | cons t rest ih =>
    intro i keys validators hall
    have ht : (ParseUint t).2 = none := hall t (List.mem_cons_self _ _)
    have hrest : ∀ tok ∈ rest, validToken tok :=
      fun tok hm => hall tok (List.mem_cons_of_mem _ hm)
    have hp : ParseUint t = (tokenValue t, none) := by
      unfold tokenValue
      rw [← ht]
    simp only [parseLoop, hp, List.map_cons, fillLoop]
    split_ifs
    · exact ih _ _ _ hrest
    · exact ih _ _ _ hrest

theorem parseLoop_invalid (toks : List (List Char)) :
    ∀ (i : Nat) (keys validators : List Nat), (∃ tok ∈ toks, ¬ validToken tok) →
      (parseLoop toks i keys validators).1 = [] ∧
      ∃ tok ∈ toks, ¬ validToken tok ∧
        (parseLoop toks i keys validators).2 = (ParseUint tok).2 := by
  induction toks with
  | nil => intro i keys validators h; simp at h
  | cons t rest ih =>
    intro i keys validators h
    cases hp : ParseUint t with
    | mk v err =>
      cases err with
      | some e =>
        refine ⟨by simp [parseLoop, hp], t, List.mem_cons_self _ _, ?_, ?_⟩
        · simp [validToken, hp]
        · simp [parseLoop, hp]
      | none =>
        have hrest : ∃ tok ∈ rest, ¬ validToken tok := by
          obtain ⟨tok, hm, hv⟩ := h
          rcases List.mem_cons.mp hm with rfl | hm
          · exact absurd (by simp [validToken, hp]) hv
          · exact ⟨tok, hm, hv⟩
        simp only [parseLoop, hp]
        split_ifs
        · obtain ⟨h1, tok, hm, hv, he⟩ := ih (i + 1) keys validators hrest
          exact ⟨h1, tok, List.mem_cons_of_mem _ hm, hv, he⟩
        · obtain ⟨h1, tok, hm, hv, he⟩ := ih (i + 1) (v :: keys) (validators.set i v) hrest
          exact ⟨h1, tok, List.mem_cons_of_mem _ hm, hv, he⟩

theorem parseLoop_ok_valid (toks : List (List Char)) (i : Nat) (keys validators : List Nat)
    (h : (parseLoop toks i keys validators).2 = none) : ∀ tok ∈ toks, validToken tok := by
  by_contra hc
  push_neg at hc
  obtain ⟨_, tok, _, hv, he⟩ := parseLoop_invalid toks i keys validators hc
  rw [h] at he
  exact hv he.symm

theorem fillLoop_length (vals : List Nat) :
    ∀ (i : Nat) (keys validators : List Nat),
      (fillLoop vals i keys validators).length = validators.length := by
  induction vals with
  | nil => intro i keys validators; rfl
  | cons v rest ih =>
    intro i keys validators
    simp only [fillLoop]
    split_ifs
    · exact ih _ _ _
    · rw [ih]; simp

/-- Positions before the loop index are left as they were. -/
theorem fillLoop_before (vals : List Nat) :
    ∀ (i : Nat) (keys validators : List Nat) (p : Nat), p < i →
      (fillLoop vals i keys validators)[p]? = validators[p]? := by
  induction vals with
  | nil => intro i keys validators p _; rfl
  | cons v rest ih =>
    intro i keys validators p hp
    simp only [fillLoop]
    split_ifs
    · exact ih _ _ _ _ (by omega)
    · rw [ih _ _ _ _ (by omega), List.getElem?_set_ne (by omega)]

/-- The entry written for the token at offset `k` from the loop index: the
token's value when it is neither a key already nor the value of an earlier
token, and the buffer's old content otherwise. -/
theorem fillLoop_at (vals : List Nat) :
    ∀ (i : Nat) (keys validators : List Nat) (k : Nat) (v : Nat),
      vals[k]? = some v → i + k < validators.length →
      (fillLoop vals i keys validators)[i + k]?
        = if v ∈ keys ∨ v ∈ vals.take k then validators[i + k]? else some v := by
  induction vals with
  | nil => intro i keys validators k v hk; simp at hk
  | cons a rest ih =>
    intro i keys validators k v hk hlen
    cases k with
    | zero =>
      simp only [List.getElem?_cons_zero, Option.some.injEq] at hk
      subst hk
      simp only [fillLoop, Nat.add_zero, List.take_zero, List.not_mem_nil, or_false]
      split_ifs with h1
      · exact fillLoop_before _ _ _ _ _ (by omega)
      · rw [fillLoop_before _ _ _ _ _ (by omega)]
        simp at hlen
        simp [List.getElem?_set_self, hlen]
    | succ k =>
      simp only [List.getElem?_cons_succ] at hk
      have e : i + (k + 1) = (i + 1) + k := by omega
      simp only [fillLoop, List.take_succ_cons, List.mem_cons]
      rw [e] at hlen ⊢
      split_ifs with h1 h2 h3
      · rw [ih _ _ _ _ _ hk hlen, if_pos]
        rcases h2 with h2 | h2 | h2
        · exact Or.inl h2
        · exact Or.inl (h2 ▸ h1)
        · exact Or.inr h2
      · rw [ih _ _ _ _ _ hk hlen, if_neg]
        intro hc
        rcases hc with hc | hc
        · exact h2 (Or.inl hc)
        · exact h2 (Or.inr (Or.inr hc))
      · rw [ih _ _ _ _ _ hk (by simpa using hlen), if_pos, List.getElem?_set_ne (by omega)]
        rcases h3 with h3 | h3 | h3
        · exact Or.inl (List.mem_cons_of_mem _ h3)
        · exact Or.inl (h3 ▸ List.mem_cons_self _ _)
        · exact Or.inr h3
      · rw [ih _ _ _ _ _ hk (by simpa using hlen), if_neg]
        intro hc
        rcases hc with hc | hc
        · rcases List.mem_cons.mp hc with hc | hc
          · exact h3 (Or.inr (Or.inl hc))
          · exact h3 (Or.inl hc)
        · exact h3 (Or.inr (Or.inr hc))

/-! ## Lemmas on `parseValidatorsFromQueryString` -/

theorem parse_nonempty (str : String) (validatorLimit : Int) (h : str ≠ "") :
    parseValidatorsFromQueryString str validatorLimit
      = if ((tokens str).length : Int) > validatorLimit then ([], some .tooMuchValidators)
        else parseLoop (tokens str) 0 [] (List.replicate (tokens str).length 0) := by
  simp only [parseValidatorsFromQueryString, if_neg h, tokens]

/-- What a successful parse of a non-empty string went through: the limit
check passed, every token was valid, and the result is the filled buffer. -/
theorem parse_ok (str : String) (validatorLimit : Int) (vs : List Nat) (hne : str ≠ "")
    (h : parseValidatorsFromQueryString str validatorLimit = (vs, none)) :
    ((tokens str).length : Int) ≤ validatorLimit ∧ (∀ tok ∈ tokens str, validToken tok) ∧
      vs = fillLoop (tokenValues str) 0 [] (List.replicate (tokens str).length 0) := by
  rw [parse_nonempty str validatorLimit hne] at h
  split_ifs at h with hl
  · simp at h
  · have hv := parseLoop_ok_valid (tokens str) 0 [] _ (by rw [h])
    rw [parseLoop_valid _ _ _ _ hv] at h
    refine ⟨by omega, hv, ?_⟩
    simpa [tokenValues] using (congrArg Prod.fst h).symm

/-- Conversely, a non-empty string within the limit whose tokens are all valid
parses without error. -/
theorem parse_succeeds (str : String) (validatorLimit : Int) (hne : str ≠ "")
    (hl : ((tokens str).length : Int) ≤ validatorLimit)
    (hv : ∀ tok ∈ tokens str, validToken tok) :
    parseValidatorsFromQueryString str validatorLimit
      = (fillLoop (tokenValues str) 0 [] (List.replicate (tokens str).length 0), none) := by
  rw [parse_nonempty str validatorLimit hne, if_neg (by omega), parseLoop_valid _ _ _ _ hv]
  rfl

theorem mem_take_iff (vals : List Nat) (k v : Nat) :
    v ∈ vals.take k ↔ ∃ j, j < k ∧ vals[j]? = some v := by
  constructor
  · intro h
    obtain ⟨j, hj⟩ := List.mem_iff_getElem?.mp h
    rw [List.getElem?_take] at hj
    split_ifs at hj with hjk
    exact ⟨j, hjk, hj⟩
  · rintro ⟨j, hjk, hj⟩
    apply List.mem_iff_getElem?.mpr
    exact ⟨j, by rw [List.getElem?_take, if_pos hjk]; exact hj⟩

/-- The filled buffer, entry by entry. -/
theorem fill_entry (vals : List Nat) (k v : Nat) (hk : vals[k]? = some v) :
    (fillLoop vals 0 [] (List.replicate vals.length 0))[k]?
      = if v ∈ vals.take k then some 0 else some v := by
  have hlt : k < vals.length := by
    by_contra hc
    rw [List.getElem?_eq_none (by omega)] at hk
    simp at hk
  have := fillLoop_at vals 0 [] (List.replicate vals.length 0) k v hk (by simpa using hlt)
  simp only [Nat.zero_add, List.not_mem_nil, false_or] at this
  rw [this]
  split_ifs
  · simp [List.getElem?_replicate, hlt]
  · rfl

/-- Every parsed identifier occurs in the slice of a successful parse, and
every entry of the slice is a parsed identifier or zero. -/
theorem parse_values_mem (str : String) (validatorLimit : Int) (vs : List Nat) (hne : str ≠ "")
    (h : parseValidatorsFromQueryString str validatorLimit = (vs, none)) :
    (∀ x ∈ tokenValues str, x ∈ vs) ∧ (∀ x ∈ vs, x = 0 ∨ x ∈ tokenValues str) := by
  obtain ⟨_, _, hvs⟩ := parse_ok str validatorLimit vs hne h
  have hlen : vs.length = (tokenValues str).length := by
    rw [hvs, fillLoop_length]; simp [tokenValues]
  constructor
  · intro x hx
    have hex : ∃ i, (tokenValues str)[i]? = some x := List.mem_iff_getElem?.mp hx
    have hmin : ∀ j, j < Nat.find hex → (tokenValues str)[j]? ≠ some x :=
      fun j hj => Nat.find_min hex hj
    have hfill := fill_entry (tokenValues str) (Nat.find hex) x (Nat.find_spec hex)
    rw [if_neg] at hfill
    · rw [hvs]
      simp only [List.length_map, tokenValues] at hfill ⊢
      exact List.mem_iff_getElem?.mpr ⟨_, hfill⟩
    · rw [mem_take_iff]
      rintro ⟨j, hj, he⟩
      exact hmin j hj he
  · intro x hx
    obtain ⟨i, hi⟩ := List.mem_iff_getElem?.mp hx
    have hilt : i < (tokenValues str).length := by
      by_contra hc
      rw [List.getElem?_eq_none (by omega)] at hi
      simp at hi
    obtain ⟨v, hget⟩ : ∃ v, (tokenValues str)[i]? = some v :=
      ⟨_, List.getElem?_eq_getElem hilt⟩
    have hfill := fill_entry (tokenValues str) i v hget
    have hvs' : vs = fillLoop (tokenValues str) 0 [] (List.replicate (tokenValues str).length 0) := by
      rw [hvs]; simp [tokenValues]
    rw [← hvs', hi] at hfill
    split_ifs at hfill
    · left
      simpa using hfill
    · right
      have : x = v := by simpa using hfill
      rw [this]
      exact List.mem_iff_getElem?.mpr ⟨i, hget⟩

/-- When the parsed values are pairwise distinct, a successful parse returns
exactly them, in token order. -/
theorem parse_nodup (str : String) (validatorLimit : Int) (vs : List Nat) (hne : str ≠ "")
    (hnd : (tokenValues str).Nodup)
    (h : parseValidatorsFromQueryString str validatorLimit = (vs, none)) :
    vs = tokenValues str := by
  obtain ⟨_, _, hvs⟩ := parse_ok str validatorLimit vs hne h
  have hvs' : vs = fillLoop (tokenValues str) 0 [] (List.replicate (tokenValues str).length 0) := by
    rw [hvs]; simp [tokenValues]
  apply List.ext_getElem?
  intro i
  by_cases hilt : i < (tokenValues str).length
  · obtain ⟨v, hget⟩ : ∃ v, (tokenValues str)[i]? = some v :=
      ⟨_, List.getElem?_eq_getElem hilt⟩
    have hfill := fill_entry (tokenValues str) i v hget
    rw [← hvs'] at hfill
    rw [hfill, hget, if_neg]
    rw [mem_take_iff]
    rintro ⟨j, hj, he⟩
    have hjlt : j < (tokenValues str).length := by omega
    have e1 : (tokenValues str)[j] = v := by
      rw [List.getElem?_eq_getElem hjlt] at he
      exact Option.some.inj he
    have e2 : (tokenValues str)[i] = v := by
      rw [List.getElem?_eq_getElem hilt] at hget
      exact Option.some.inj hget
    have := (List.Nodup.getElem_inj_iff hnd).mp (e1.trans e2.symm)
    omega
  · have hl : vs.length = (tokenValues str).length := by
      rw [hvs', fillLoop_length]; simp
    rw [List.getElem?_eq_none (by omega), List.getElem?_eq_none (by omega)]

/-! ## First occurrences -/

theorem mem_distinctInOrder (vals : List Nat) (x : Nat) :
    x ∈ distinctInOrder vals ↔ x ∈ vals := by
  induction vals with
  | nil => simp [distinctInOrder]
  | cons v rest ih =>
    simp only [distinctInOrder, List.mem_cons, List.mem_filter, ih, decide_eq_true_eq]
    constructor
    · rintro (h | ⟨h, _⟩)
      · exact Or.inl h
      · exact Or.inr h
    · rintro (h | h)
      · exact Or.inl h
      · by_cases hx : x = v
        · exact Or.inl hx
        · exact Or.inr ⟨h, hx⟩

theorem distinctInOrder_nodup (vals : List Nat) : (distinctInOrder vals).Nodup := by
  induction vals with
  | nil => simp [distinctInOrder]
  | cons v rest ih =>
    simp only [distinctInOrder, List.nodup_cons, List.mem_filter, decide_eq_true_eq]
    exact ⟨fun h => h.2 rfl, ih.filter _⟩

theorem firstOccurrences_filter (vals : List Nat) :
    ∀ seen : List Nat,
      ((List.range vals.length).filter
          (fun i => decide (vals.getD i 0 ∉ seen) && isFirstOccurrence vals i)).map
          (fun i => vals.getD i 0)
        = (distinctInOrder vals).filter (fun x => decide (x ∉ seen)) := by
  induction vals with
  | nil => intro seen; rfl
  | cons v rest ih =>
    intro seen
    have hpred : ∀ i, (decide ((v :: rest).getD (i + 1) 0 ∉ seen)
          && isFirstOccurrence (v :: rest) (i + 1))
        = (decide (rest.getD i 0 ∉ v :: seen) && isFirstOccurrence rest i) := by
      intro i
      simp only [isFirstOccurrence, List.getD_cons_succ, List.take_succ_cons, List.mem_cons,
        not_or, Bool.decide_and]
      cases decide (rest.getD i 0 ∉ seen) <;> cases decide (¬ rest.getD i 0 = v) <;>
        cases decide (rest.getD i 0 ∉ List.take i rest) <;> rfl
    have hfilt : (distinctInOrder rest).filter (fun x => decide (x ∉ v :: seen))
        = ((distinctInOrder rest).filter (fun x => decide (x ≠ v))).filter
            (fun x => decide (x ∉ seen)) := by
      rw [List.filter_filter]
      congr 1
      funext x
      simp only [List.mem_cons, not_or, Bool.decide_and, ne_eq]
      cases decide (¬ x = v) <;> cases decide (x ∉ seen) <;> rfl
    rw [List.length_cons, List.range_succ_eq_map, List.filter_cons, List.filter_map,
      distinctInOrder, List.filter_cons]
    have hcomp : ((fun i => decide ((v :: rest).getD i 0 ∉ seen)
          && isFirstOccurrence (v :: rest) i) ∘ Nat.succ)
        = fun i => (decide (rest.getD i 0 ∉ v :: seen) && isFirstOccurrence rest i) := by
      funext i
      exact hpred i
    rw [hcomp]
    have h0 : isFirstOccurrence (v :: rest) 0 = true := by simp [isFirstOccurrence]
    simp only [List.getD_cons_zero, h0, Bool.and_true]
    by_cases hv : v ∈ seen
    · simp only [hv, not_true_eq_false, decide_False, Bool.false_eq_true, if_false]
      rw [List.map_map, ← hfilt, ← ih (v :: seen)]
      rfl
    · simp only [hv, not_false_eq_true, decide_True, if_true, List.map_cons, List.getD_cons_zero]
      rw [List.map_map, ← hfilt, ← ih (v :: seen)]
      rfl

theorem firstOccurrences_eq_distinct (vals : List Nat) :
    entriesAtFirstOccurrences vals vals = distinctInOrder vals := by
  have h := firstOccurrences_filter vals []
  simp only [List.not_mem_nil, not_false_eq_true, decide_True, Bool.true_and,
    List.filter_true] at h
  exact h

/-! ## Properties of `parseValidatorsFromQueryString` -/

/-- C8: for every limit, zero and negative ones included, the empty string
parses to the empty slice with no error. -/
theorem parse_empty_string (validatorLimit : Int) :
    parseValidatorsFromQueryString "" validatorLimit = ([], none) := by
  simp [parseValidatorsFromQueryString]

/-- C3: a non-empty string with more tokens than the limit fails with the
too-many error and the empty slice, whatever the tokens are (duplicates and
malformed tokens included). -/
theorem parse_too_many (str : String) (validatorLimit : Int) (hne : str ≠ "")
    (hgt : ((tokens str).length : Int) > validatorLimit) :
    parseValidatorsFromQueryString str validatorLimit = ([], some .tooMuchValidators) := by
  rw [parse_nonempty str validatorLimit hne, if_pos hgt]

/-- C3 at "5,5,5" with limit 2: three tokens, one distinct value, still the
too-many error. -/
theorem parse_too_many_witness :
    ("5,5,5" ≠ "" ∧ ((tokens "5,5,5").length : Int) > 2 ∧ (tokenValues "5,5,5").dedup.length ≤ 2) ∧
      parseValidatorsFromQueryString "5,5,5" 2 = ([], some .tooMuchValidators) :=
  ⟨by decide, parse_too_many "5,5,5" 2 (by decide) (by decide)⟩

/-- C7: with a positive limit, a successful parse returns at most `limit`
entries. -/
theorem parse_length_le_limit (str : String) (validatorLimit : Int) (vs : List Nat)
    (hpos : 0 < validatorLimit)
    (h : parseValidatorsFromQueryString str validatorLimit = (vs, none)) :
    (vs.length : Int) ≤ validatorLimit := by
  by_cases hne : str = ""
  · subst hne
    rw [parse_empty_string] at h
    have : vs = [] := by simpa using (congrArg Prod.fst h).symm
    subst this
    simpa using hpos.le
  · obtain ⟨hl, _, hvs⟩ := parse_ok str validatorLimit vs hne h
    rw [hvs, fillLoop_length]
    simpa using hl

/-- C7 at "5,5,12" with limit 3. -/
theorem parse_length_le_limit_witness :
    (0 : Int) < 3 ∧ parseValidatorsFromQueryString "5,5,12" 3 = ([5, 0, 12], none) ∧
      (([5, 0, 12] : List Nat).length : Int) ≤ 3 :=
  ⟨by decide, by decide, parse_length_le_limit "5,5,12" 3 [5, 0, 12] (by decide) (by decide)⟩

/-- C10: on a non-empty input that parses, the slice has one entry per token;
entry `i` is the value of token `i` when no earlier token has that value, and
`0` when an earlier token has it. -/
theorem parse_entries (str : String) (validatorLimit : Int) (vs : List Nat) (hne : str ≠ "")
    (h : parseValidatorsFromQueryString str validatorLimit = (vs, none)) :
    vs.length = (tokens str).length ∧
      ∀ i, i < (tokens str).length →
        ((∀ j, j < i → (tokenValues str)[j]? ≠ (tokenValues str)[i]?) →
            vs[i]? = (tokenValues str)[i]?) ∧
        ((∃ j, j < i ∧ (tokenValues str)[j]? = (tokenValues str)[i]?) → vs[i]? = some 0) := by
  obtain ⟨_, _, hvs⟩ := parse_ok str validatorLimit vs hne h
  have hlen : (tokenValues str).length = (tokens str).length := by simp [tokenValues]
  refine ⟨by rw [hvs, fillLoop_length]; simp, ?_⟩
  intro i hi
  obtain ⟨v, hget⟩ : ∃ v, (tokenValues str)[i]? = some v :=
    ⟨_, List.getElem?_eq_getElem (by omega)⟩
  have hfill := fill_entry (tokenValues str) i v hget
  rw [hlen, ← hvs] at hfill
  rw [hfill, hget]
  constructor
  · intro hall
    rw [if_neg]
    rw [mem_take_iff]
    rintro ⟨j, hj, he⟩
    exact hall j hj he
  · rintro ⟨j, hj, he⟩
    rw [if_pos]
    rw [mem_take_iff]
    exact ⟨j, hj, he⟩

/-- C10 at "5,5,12" with limit 200, where the result is `[5, 0, 12]`. -/
theorem parse_entries_witness :
    parseValidatorsFromQueryString "5,5,12" 200 = ([5, 0, 12], none) ∧
      ([5, 0, 12] : List Nat).length = (tokens "5,5,12").length ∧
      ∀ i, i < (tokens "5,5,12").length →
        ((∀ j, j < i → (tokenValues "5,5,12")[j]? ≠ (tokenValues "5,5,12")[i]?) →
            ([5, 0, 12] : List Nat)[i]? = (tokenValues "5,5,12")[i]?) ∧
        ((∃ j, j < i ∧ (tokenValues "5,5,12")[j]? = (tokenValues "5,5,12")[i]?) →
            ([5, 0, 12] : List Nat)[i]? = some 0) :=
  ⟨by decide, parse_entries "5,5,12" 200 [5, 0, 12] (by decide) (by decide)⟩

/-- C2, as amended: on a non-empty string whose token count is within the
limit, one invalid token anywhere makes the parse fail with the error
`ParseUint` gave for an invalid token (a `NumError`, not the too-many error)
and return the empty slice. -/
theorem parse_malformed (str : String) (validatorLimit : Int) (hne : str ≠ "")
    (hl : ((tokens str).length : Int) ≤ validatorLimit)
    (hbad : ∃ tok ∈ tokens str, ¬ validToken tok) :
    (parseValidatorsFromQueryString str validatorLimit).1 = [] ∧
      isMalformed (parseValidatorsFromQueryString str validatorLimit).2 ∧
      ∃ tok ∈ tokens str, ¬ validToken tok ∧
        (parseValidatorsFromQueryString str validatorLimit).2 = (ParseUint tok).2 := by
  rw [parse_nonempty str validatorLimit hne, if_neg (by omega)]
  obtain ⟨h1, tok, hm, hv, he⟩ := parseLoop_invalid (tokens str) 0 []
    (List.replicate (tokens str).length 0) hbad
  refine ⟨h1, ?_, tok, hm, hv, he⟩
  rw [he]
  exact ParseUint_isMalformed tok hv

/-- C2 as amended, at "5,5,12,abc" with limit 200. -/
theorem parse_malformed_witness :
    parseValidatorsFromQueryString "5,5,12,abc" 200
        = ([], some (.numError ['a', 'b', 'c'] .ErrSyntax)) ∧
      ((parseValidatorsFromQueryString "5,5,12,abc" 200).1 = [] ∧
        isMalformed (parseValidatorsFromQueryString "5,5,12,abc" 200).2 ∧
        ∃ tok ∈ tokens "5,5,12,abc", ¬ validToken tok ∧
          (parseValidatorsFromQueryString "5,5,12,abc" 200).2 = (ParseUint tok).2) :=
  ⟨by decide, parse_malformed "5,5,12,abc" 200 (by decide) (by decide)
    ⟨['a', 'b', 'c'], by decide, by decide⟩⟩

/-- C2 as stated fails: "abc,1" has an invalid token, yet with limit 1 the
parse fails with the too-many error, which is checked first; and the one token
of the empty string is invalid, yet the empty string parses without error. -/
theorem parse_malformed_counterexample :
    ((∃ tok ∈ tokens "abc,1", ¬ validToken tok) ∧
        parseValidatorsFromQueryString "abc,1" 1 = ([], some .tooMuchValidators) ∧
        ¬ isMalformed (parseValidatorsFromQueryString "abc,1" 1).2) ∧
      ((∃ tok ∈ tokens "", ¬ validToken tok) ∧
        parseValidatorsFromQueryString "" 200 = ([], none) ∧
        ¬ isMalformed (parseValidatorsFromQueryString "" 200).2) := by
  refine ⟨⟨⟨['a', 'b', 'c'], by decide, by decide⟩, by decide, ?_⟩,
    ⟨⟨[], by decide, by decide⟩, by decide, ?_⟩⟩
  · have h : parseValidatorsFromQueryString "abc,1" 1 = ([], some .tooMuchValidators) := by
      decide
    rw [h]
    exact id
  · rw [parse_empty_string]
    exact id

/-- C1 fails on the code at "5,5" with limit 200: both tokens are valid and
within the limit and the parse succeeds, but it returns `[5, 0]`, whose value
`0` is not among the parsed integers. -/
theorem parse_duplicate_adds_zero :
    ((tokens "5,5").length : Int) ≤ 200 ∧ (∀ tok ∈ tokens "5,5", validToken tok) ∧
      tokenValues "5,5" = [5, 5] ∧
      parseValidatorsFromQueryString "5,5" 200 = ([5, 0], none) ∧
      ¬ (∀ x, x ∈ (parseValidatorsFromQueryString "5,5" 200).1 ↔ x ∈ tokenValues "5,5") := by
  refine ⟨by decide, by decide, by decide, by decide, ?_⟩
  intro hall
  have h0 : (0 : Nat) ∈ tokenValues "5,5" := (hall 0).mp (by decide)
  exact absurd h0 (by decide)

/-- C4 fails on the code at "5,5,7,7" with limit 200: the parse succeeds with
`[5, 0, 7, 0]`, where `0` occurs at two positions and the length is 4 although
only 2 distinct identifiers were parsed. -/
theorem parse_result_has_duplicates :
    parseValidatorsFromQueryString "5,5,7,7" 200 = ([5, 0, 7, 0], none) ∧
      ¬ (parseValidatorsFromQueryString "5,5,7,7" 200).1.Nodup ∧
      (tokenValues "5,5,7,7").dedup.length = 2 ∧
      (parseValidatorsFromQueryString "5,5,7,7" 200).1.length = 4 := by
  refine ⟨by decide, by decide, by decide, by decide⟩

/-- C9, as amended: when a parse succeeds on tokens with duplicate values,
the slice has one entry per token, its entries at the positions of first
occurrences are the distinct identifiers in first-occurrence order, and every
other entry, at the position of a skipped duplicate, is zero. -/
theorem parse_zeros_in_place (str : String) (validatorLimit : Int) (vs : List Nat)
    (hdup : ¬ (tokenValues str).Nodup)
    (h : parseValidatorsFromQueryString str validatorLimit = (vs, none)) :
    vs.length = (tokens str).length ∧
      entriesAtFirstOccurrences (tokenValues str) vs = distinctInOrder (tokenValues str) ∧
      ∀ i, i < (tokens str).length → isFirstOccurrence (tokenValues str) i = false →
        vs[i]? = some 0 := by
  have hne : str ≠ "" := by
    rintro rfl
    exact hdup (by decide)
  obtain ⟨_, _, hvs⟩ := parse_ok str validatorLimit vs hne h
  have hlen : (tokenValues str).length = (tokens str).length := by simp [tokenValues]
  have hentry : ∀ i, i < (tokens str).length →
      vs[i]? = if isFirstOccurrence (tokenValues str) i then (tokenValues str)[i]?
        else some 0 := by
    intro i hi
    obtain ⟨v, hget⟩ : ∃ v, (tokenValues str)[i]? = some v :=
      ⟨_, List.getElem?_eq_getElem (by omega)⟩
    have hfill := fill_entry (tokenValues str) i v hget
    rw [hlen, ← hvs] at hfill
    have hd : (tokenValues str).getD i 0 = v := by
      rw [List.getD_eq_getElem?_getD, hget]; rfl
    rw [hfill, hget]
    simp only [isFirstOccurrence, hd, decide_not, Bool.not_eq_true', decide_eq_false_iff_not,
      ite_not]
  refine ⟨by rw [hvs, fillLoop_length]; simp, ?_, ?_⟩
  · rw [← firstOccurrences_eq_distinct (tokenValues str)]
    unfold entriesAtFirstOccurrences
    apply List.map_congr_left
    intro i hi
    obtain ⟨hr, hf⟩ := List.mem_filter.mp hi
    have hi' : i < (tokens str).length := by
      rw [← hlen]; exact List.mem_range.mp hr
    have := hentry i hi'
    rw [if_pos hf] at this
    rw [List.getD_eq_getElem?_getD, List.getD_eq_getElem?_getD, this]
  · intro i hi hf
    have := hentry i hi
    rw [hf] at this
    simpa using this

/-- C9 as amended, at "5,5,12" with limit 200. -/
theorem parse_zeros_in_place_witness :
    (¬ (tokenValues "5,5,12").Nodup ∧
        parseValidatorsFromQueryString "5,5,12" 200 = ([5, 0, 12], none)) ∧
      (([5, 0, 12] : List Nat).length = (tokens "5,5,12").length ∧
        entriesAtFirstOccurrences (tokenValues "5,5,12") [5, 0, 12]
          = distinctInOrder (tokenValues "5,5,12") ∧
        ∀ i, i < (tokens "5,5,12").length → isFirstOccurrence (tokenValues "5,5,12") i = false →
          ([5, 0, 12] : List Nat)[i]? = some 0) :=
  ⟨⟨by decide, by decide⟩, parse_zeros_in_place "5,5,12" 200 [5, 0, 12] (by decide) (by decide)⟩

/-- C9 as stated fails at "5,5,12" with limit 200: the parse succeeds on
tokens with a duplicate and returns `[5, 0, 12]`, which is not the distinct
identifiers `[5, 12]` followed by zero entries only. -/
theorem parse_zeros_trailing_counterexample :
    parseValidatorsFromQueryString "5,5,12" 200 = ([5, 0, 12], none) ∧
      ¬ (tokenValues "5,5,12").Nodup ∧
      distinctInOrder (tokenValues "5,5,12") = [5, 12] ∧
      ∀ k, (parseValidatorsFromQueryString "5,5,12" 200).1
        ≠ distinctInOrder (tokenValues "5,5,12") ++ List.replicate k 0 := by
  have hp : parseValidatorsFromQueryString "5,5,12" 200 = ([5, 0, 12], none) := by decide
  have hd : distinctInOrder (tokenValues "5,5,12") = [5, 12] := by decide
  refine ⟨hp, by decide, hd, ?_⟩
  intro k hk
  rw [hp, hd] at hk
  have h1 := congrArg (fun l => l[1]?) hk
  simp at h1

/-! ## Properties of the handlers -/

theorem httpError_new (msg : String) (code : Nat) :
    httpError ResponseWriter.new msg code = ⟨some code, [.text msg]⟩ := rfl

theorem httpError_new_no_payload (msg : String) (code : Nat) :
    ¬ hasPayload (httpError ResponseWriter.new msg code) := by
  rintro ⟨b, hb, v, hv⟩
  rw [httpError_new] at hb
  simp only [List.mem_singleton] at hb
  rw [hb] at hv
  cases hv

/-- A failed income-history query ends `DashboardDataBalance` with status 500
and the error text alone. -/
theorem balance_query_error (env : Env) (r : Request) (vs : List Nat) (data : Json)
    (e : String) (hp : parseValidatorsFromQueryString r.validators r.MaxValidators = (vs, none))
    (hlen : ¬ vs.length < 1)
    (hq : env.GetValidatorIncomeHistoryChart vs r.currency = (data, some e)) :
    DashboardDataBalance env r = ⟨some 500, [.text "Internal server error"]⟩ := by
  simp only [DashboardDataBalance, hp, hq, if_neg hlen]
  rfl

/-- A failed query ends `DashboardDataProposals` with status 503 and the error
text alone. -/
theorem proposals_query_error (env : Env) (r : Request) (vs : List Nat)
    (rows : List (Nat × Nat)) (e : String)
    (hp : parseValidatorsFromQueryString r.validators r.MaxValidators = (vs, none))
    (hq : env.selectProposals vs = (rows, some e)) :
    DashboardDataProposals env r = ⟨some 503, [.text "Internal server error"]⟩ := by
  simp only [DashboardDataProposals, hp, hq]
  rfl

/-- A failed query ends `DashboardDataValidators` with status 503 and the error
text alone. -/
theorem validators_query_error (env : Env) (r : Request) (vs : List Nat)
    (rows : List ValidatorsPageDataValidators) (e : String)
    (hp : parseValidatorsFromQueryString r.validators r.MaxValidators = (vs, none))
    (hq : env.selectValidators vs r.MaxValidators = (rows, some e)) :
    DashboardDataValidators env r = ⟨some 503, [.text "Internal server error"]⟩ := by
  simp only [DashboardDataValidators, hp, hq]
  rfl

/-- A failed query ends `DashboardDataProposalsHistory` with status 503 and
the error text alone. -/
theorem proposalsHistory_query_error (env : Env) (r : Request) (vs : List Nat)
    (rows : List ProposalHistoryRow) (e : String)
    (hp : parseValidatorsFromQueryString r.validators r.MaxValidators = (vs, none))
    (hq : env.selectProposalsHistory vs = (rows, some e)) :
    DashboardDataProposalsHistory env r = ⟨some 503, [.text "Internal server error"]⟩ := by
  simp only [DashboardDataProposalsHistory, hp, hq]
  rfl

/-- A failed `GetValidatorEarnings` makes `DashboardDataEarnings` write the
error response and then, when the encoding succeeds, a JSON payload as well:
the returned earnings, or the zero value when the pointer is nil. -/
theorem earnings_query_error (env : Env) (r : Request) (vs : List Nat)
    (earnings : Option Json) (e : String)
    (hp : parseValidatorsFromQueryString r.validators r.MaxValidators = (vs, none))
    (hq : env.GetValidatorEarnings vs r.currency = (earnings, some e))
    (henc : env.encodeFails (earnings.getD env.zeroValidatorEarnings) = false) :
    DashboardDataEarnings env r
      = ⟨some 503, [.text "Internal server error",
          .json (earnings.getD env.zeroValidatorEarnings)]⟩ := by
  cases earnings with
  | none =>
    simp only [Option.getD_none] at henc
    simp only [DashboardDataEarnings, hp, hq, encodeResponse, henc]
    rfl
  | some x =>
    simp only [Option.getD_some] at henc
    simp only [DashboardDataEarnings, hp, hq, encodeResponse, henc]
    rfl

/-- A failed active-validators query that leaves no rows behind ends
`DashboardDataEffectiveness` with the client error 400. -/
theorem effectiveness_first_query_error (env : Env) (r : Request) (vs : List Nat) (e : String)
    (hp : parseValidatorsFromQueryString r.validators r.MaxValidators = (vs, none))
    (hq : env.selectActiveValidators vs env.LatestEpoch = ([], some e)) :
    DashboardDataEffectiveness env r = ⟨some 400, [.text "Invalid query"]⟩ := by
  simp only [DashboardDataEffectiveness, hp, hq]
  rfl

/-- A failed effectiveness query ends `DashboardDataEffectiveness` with status
503 and the error text alone. -/
theorem effectiveness_second_query_error (env : Env) (r : Request) (vs active : List Nat)
    (err1 : Option String) (samples : List Json) (e : String)
    (hp : parseValidatorsFromQueryString r.validators r.MaxValidators = (vs, none))
    (hq1 : env.selectActiveValidators vs env.LatestEpoch = (active, err1))
    (hact : active.length ≠ 0)
    (hq2 : env.GetValidatorEffectiveness active ((env.LatestEpoch + 2 ^ 64 - 1) % 2 ^ 64)
      = (samples, some e)) :
    DashboardDataEffectiveness env r = ⟨some 503, [.text "Internal server error"]⟩ := by
  simp only [DashboardDataEffectiveness, hp, hq1, if_neg hact, hq2]
  rfl

/-- C6 fails on the code for the request `validators=5,12` against a store
whose queries all fail.  The identifier list parses and `GetValidatorEarnings`
returns an error, yet `DashboardDataEarnings` answers 503 and still writes a
JSON payload after the error text; and `DashboardDataEffectiveness`, whose
first query fails, answers with the client error 400. -/
theorem earnings_error_and_payload :
    parseValidatorsFromQueryString "5,12" 200 = ([5, 12], none) ∧
      (failingEnv.GetValidatorEarnings [5, 12] "ETH").2 = some "store unavailable" ∧
      DashboardDataEarnings failingEnv ⟨"5,12", "ETH", 200⟩
        = ⟨some 503, [.text "Internal server error", .json (.obj [])]⟩ ∧
      isServerError (DashboardDataEarnings failingEnv ⟨"5,12", "ETH", 200⟩) ∧
      hasPayload (DashboardDataEarnings failingEnv ⟨"5,12", "ETH", 200⟩) ∧
      (failingEnv.selectActiveValidators [5, 12] failingEnv.LatestEpoch).2
        = some "store unavailable" ∧
      DashboardDataEffectiveness failingEnv ⟨"5,12", "ETH", 200⟩
        = ⟨some 400, [.text "Invalid query"]⟩ ∧
      isClientError (DashboardDataEffectiveness failingEnv ⟨"5,12", "ETH", 200⟩) := by
  have hp : parseValidatorsFromQueryString "5,12" 200 = ([5, 12], none) := by decide
  have h1 : DashboardDataEarnings failingEnv ⟨"5,12", "ETH", 200⟩
      = ⟨some 503, [.text "Internal server error", .json (.obj [])]⟩ :=
    earnings_query_error failingEnv ⟨"5,12", "ETH", 200⟩ [5, 12] none "store unavailable"
      hp rfl rfl
  have h2 : DashboardDataEffectiveness failingEnv ⟨"5,12", "ETH", 200⟩
      = ⟨some 400, [.text "Invalid query"]⟩ :=
    effectiveness_first_query_error failingEnv ⟨"5,12", "ETH", 200⟩ [5, 12]
      "store unavailable" hp rfl
  refine ⟨hp, rfl, h1, ?_, ?_, rfl, h2, ?_⟩
  · rw [h1]; exact ⟨503, rfl, by decide, by decide⟩
  · rw [h1]; exact ⟨_, List.mem_cons_of_mem _ (List.mem_singleton.mpr rfl), _, rfl⟩
  · rw [h2]; exact ⟨400, rfl, by decide, by decide⟩

/-- C5, as amended: a lifecycle epoch equal to 9223372036854775807, the
largest signed 64-bit value, is shaped as the absence marker `null`; so that
sentinel is never the epoch of an (epoch, timestamp) pair in the row. -/
theorem validatorRow_unset_epoch (env : Env) (currency : String)
    (v : ValidatorsPageDataValidators) (f : LifecycleField)
    (h : f.value v = 9223372036854775807) :
    (validatorRow env currency v)[f.position]? = some .null ∧
      ∀ ts, (validatorRow env currency v)[f.position]?
        ≠ some (.arr [.num 9223372036854775807, .num ts]) := by
  have key : (validatorRow env currency v)[f.position]? = some .null := by
    cases f <;> simp only [LifecycleField.value] at h <;>
      cases hl : v.LastAttestationSlot <;>
      simp [validatorRow, LifecycleField.position, h, hl] <;>
      split_ifs <;> simp
  refine ⟨key, ?_⟩
  intro ts hc
  rw [key] at hc
  cases hc

/-- C5 as amended, at a validator whose exit epoch is 9223372036854775807. -/
theorem validatorRow_unset_epoch_witness :
    LifecycleField.exit.value unsetExitValidator = 9223372036854775807 ∧
      ((validatorRow failingEnv "ETH" unsetExitValidator)[LifecycleField.exit.position]?
          = some .null ∧
        ∀ ts, (validatorRow failingEnv "ETH" unsetExitValidator)[LifecycleField.exit.position]?
          ≠ some (.arr [.num 9223372036854775807, .num ts])) :=
  ⟨rfl, validatorRow_unset_epoch failingEnv "ETH" unsetExitValidator .exit rfl⟩

/-- C5 as stated fails: a validator whose exit epoch is the largest unsigned
64-bit value 18446744073709551615 gets an (epoch, timestamp) pair carrying
that number in its row, not the absence marker. -/
theorem validatorRow_max_uint64_counterexample :
    LifecycleField.exit.value farFutureValidator = 18446744073709551615 ∧
      (validatorRow failingEnv "ETH" farFutureValidator)[LifecycleField.exit.position]?
        = some (.arr [.num 18446744073709551615,
            .num (failingEnv.EpochToTimeUnix 18446744073709551615)]) ∧
      (validatorRow failingEnv "ETH" farFutureValidator)[LifecycleField.exit.position]?
        ≠ some .null := by
  have h : (validatorRow failingEnv "ETH" farFutureValidator)[LifecycleField.exit.position]?
      = some (.arr [.num 18446744073709551615,
          .num (failingEnv.EpochToTimeUnix 18446744073709551615)]) := by
    rfl
  refine ⟨rfl, h, ?_⟩
  rw [h]
  intro hc
  cases hc

end Dashboard
